import Mathlib

/-!
# Verification of the `toggle_term` slide renderer (`src/rendering.rs`)

Shallow embedding of the rendering module of the repository.  Text is
modelled as `List Char`; the terminal output sink is modelled as the list
of directives the Rust code writes (termion control sequences become
constructors of `Directive`).  Fallible operations — every `unwrap()` on
an `Option` and every debug-mode arithmetic underflow — are modelled by
`Option`: a `none` result means the Rust code panics at that point.

Terminal geometry (`terminal_size()`, a `(u16, u16)` pair) is passed in as
explicit `w h : ℕ` arguments, and the cursor-row query of
`render_text_centered` as the argument `y`; after the initial
`Goto(1, 1)` of `render_slide` the cursor row is 1.

The `f32` arithmetic of `render_progress_bar` is modelled exactly over `ℚ`
with round-to-nearest, ties-to-even at 24 significant bits (IEEE-754
binary32, normal range; the theorems restrict inputs to ranges where no
overflow or subnormal rounding can occur: `total < 2^64` because
`total_slides` is a `usize`, and `w ≤ 65535` because the width is a `u16`).
-/

namespace ToggleTerm

/-- One line (or any piece) of slide text, as a sequence of characters.
Rust `str::len` is a byte count; for the padding arithmetic below the
character count of the model coincides with it on ASCII text. -/
abbrev Line := List Char

/-- Rust `char::is_whitespace`: the Unicode `White_Space` property. -/
def isWS (c : Char) : Bool :=
  let n := c.toNat
  (0x09 ≤ n && n ≤ 0x0D) || n == 0x20 || n == 0x85 || n == 0xA0 ||
  n == 0x1680 || (0x2000 ≤ n && n ≤ 0x200A) || n == 0x2028 || n == 0x2029 ||
  n == 0x202F || n == 0x205F || n == 0x3000

/-- An RGB colour triple (`termion::color::Rgb`). -/
structure Rgb where
  r : ℕ
  g : ℕ
  b : ℕ
deriving DecidableEq

/-- The colour slots of a theme that `rendering.rs` reads
(`theme.get_colors().green/.teal/.red/.peach`); the real `colors.rs` has
more slots, but only these four are consumed by the renderer. -/
structure Colors where
  green : Rgb
  teal : Rgb
  red : Rgb
  peach : Rgb
deriving DecidableEq

/-- The `Header` enum of `rendering.rs`. -/
inductive Header where
  | header1
  | header2
  | header3
  | header4
deriving DecidableEq

/-- `Header::color`: theme slot per heading level
(1 → green, 2 → teal, 3 → red, 4 → peach). -/
def Header.color (hd : Header) (theme : Colors) : Rgb :=
  match hd with
  | .header1 => theme.green
  | .header2 => theme.teal
  | .header3 => theme.red
  | .header4 => theme.peach

/-- `Header::header_by_prefix`: recognises exactly the markers
`"#"`, `"##"`, `"###"`, `"####"`. -/
def Header.byMarker : Line → Option Header
  | ['#'] => some .header1
  | ['#', '#'] => some .header2
  | ['#', '#', '#'] => some .header3
  | ['#', '#', '#', '#'] => some .header4
  | _ => none

/-- The heading level denoted by a `Header` value (spec vocabulary). -/
def Header.level : Header → ℕ
  | .header1 => 1
  | .header2 => 2
  | .header3 => 3
  | .header4 => 4

/-- `extract_prefix`: the run of leading `'#'` characters, and the rest of
the line after dropping that run (`trim_start_matches('#')`) and then all
leading whitespace (`trim_start()`). -/
def extractHashes (l : Line) : Line × Line :=
  (l.takeWhile (· == '#'), (l.dropWhile (· == '#')).dropWhile isWS)

/-- Length of the leading run of `'#'` characters of a line. -/
def leadingHashes (l : Line) : ℕ :=
  (l.takeWhile (· == '#')).length

/-- The per-line classification step of `render_slide`'s body loop:
if the line starts with `'#'`, split off the marker and look it up with
`Header::header_by_prefix(...).unwrap()` — the `unwrap` panics (modelled
as `none`) when the marker is 5 or more `'#'`s; otherwise the line is body
text, returned unchanged with no heading. -/
def classifyLine (l : Line) : Option (Line × Option Header) :=
  if l.head? = some '#' then
    match Header.byMarker (extractHashes l).1 with
    | some hd => some ((extractHashes l).2, some hd)
    | none => none
  else
    some (l, none)

/-- `Metadata` of the presentation: the optional title (the only field the
renderer reads). -/
structure Metadata where
  title : Option Line
deriving DecidableEq

/-- Modelled from the spec: the `Presentation` state object (its own file
is not part of `src/`) — ordered slide texts, 0-based current index,
metadata, and the selected theme, exactly the fields `rendering.rs`
consumes. -/
structure Presentation where
  slides : List Line
  currentSlide : ℕ
  metadata : Metadata
  theme : Colors
deriving DecidableEq

/-- Modelled from the spec: `Presentation::current_slide()` — the text of
the slide at the current index. -/
def Presentation.currentSlideText (p : Presentation) : Line :=
  p.slides.getD p.currentSlide []

/-- Modelled from the spec: `Presentation::total_slides()` — the number of
slides. -/
def Presentation.totalSlides (p : Presentation) : ℕ :=
  p.slides.length

/-- The terminal directives the renderer can emit: termion control values
and raw text, in the order they are written to the sink. -/
inductive Directive where
  | clearAll
  | goto (x y : ℕ)
  | setFg (c : Rgb)
  | fgReset
  | bold
  | styleReset
  | text (s : Line)
  | flush
deriving DecidableEq

/-- Strip one trailing `'\r'` (Rust `str::lines` removes it). -/
def chomp (l : Line) : Line :=
  if l.getLast? = some '\r' then l.dropLast else l

/-- Rust `str::lines()`: split on `'\n'`, drop the final empty piece when
the text ends with a newline, strip a trailing `'\r'` from each line;
the empty string yields no lines. -/
def rustLines (l : Line) : List Line :=
  if l = [] then []
  else
    let parts := l.splitOn '\n'
    let parts := if l.getLast? = some '\n' then parts.dropLast else parts
    parts.map chomp

/-! ## Exact model of the `f32` arithmetic of `render_progress_bar`

`current_slide.add(1) as f32 / total_slides as f32` converts both `usize`
values to `f32` (round to nearest, ties to even), divides (correctly
rounded), multiplies by `width as f32` (exact for a `u16` width, then the
product is correctly rounded), and truncates toward zero with `as usize`.
We model an `f32` value by the exact rational it denotes. -/

/-- Round a rational to the nearest integer, ties to even. -/
def rnE (q : ℚ) : ℤ :=
  if q - ⌊q⌋ < 1 / 2 then ⌊q⌋
  else if 1 / 2 < q - ⌊q⌋ then ⌊q⌋ + 1
  else if ⌊q⌋ % 2 = 0 then ⌊q⌋ else ⌊q⌋ + 1

/-- `shiftUpF fuel a b`: the least `f ≤ fuel` with `b ≤ a * 2 ^ f`
(0 when `a = 0` or the fuel runs out). -/
def shiftUpF : ℕ → ℕ → ℕ → ℕ
  | 0, _, _ => 0
  | fuel + 1, a, b => if b ≤ a then 0 else 1 + shiftUpF fuel (2 * a) b

/-- The least `f` with `b ≤ a * 2 ^ f` (for `1 ≤ a`); fuel `b` suffices. -/
def shiftUp (a b : ℕ) : ℕ := shiftUpF b a b

/-- `log2F fuel n`: `⌊log₂ n⌋` for `1 ≤ n < 2 ^ fuel` (fuel-based
structural recursion so that the kernel can evaluate it). -/
def log2F : ℕ → ℕ → ℕ
  | 0, _ => 0
  | fuel + 1, n => if n ≤ 1 then 0 else 1 + log2F fuel (n / 2)

/-- `⌊log₂ n⌋` for `n ≥ 1`; fuel `n` suffices since `n < 2 ^ n`. -/
def natLog2 (n : ℕ) : ℕ := log2F n n

/-- `⌊log₂ q⌋` for a positive rational: the unique `e` with
`2 ^ e ≤ q < 2 ^ (e + 1)`. -/
def floorLog2 (q : ℚ) : ℤ :=
  if q.den ≤ q.num.toNat then (natLog2 (q.num.toNat / q.den) : ℤ)
  else -(shiftUp q.num.toNat q.den : ℤ)

/-- Round a nonnegative rational to the nearest IEEE-754 binary32 value
(24 significant bits, round to nearest, ties to even), ignoring exponent
overflow and subnormals — faithful on the normal range, which covers all
inputs appearing in the theorems below. -/
def round32 (q : ℚ) : ℚ :=
  if q ≤ 0 then 0
  else (rnE (q * 2 ^ (23 - floorLog2 q)) : ℚ) * 2 ^ (floorLog2 q - 23)

/-- `n as f32` for a nonnegative integer. -/
def natToF32 (n : ℕ) : ℚ := round32 n

/-- Correctly rounded `f32` division. -/
def f32Div (a b : ℚ) : ℚ := round32 (a / b)

/-- Correctly rounded `f32` multiplication. -/
def f32Mul (a b : ℚ) : ℚ := round32 (a * b)

/-- `x as usize` on a nonnegative `f32`: truncation toward zero.
(Rust saturates at the `usize` bounds; on the value ranges of the
theorems below the result is far below `2 ^ 64`, and negative values,
which Rust clamps to 0, also map to 0 here.) -/
def f32ToUsize (q : ℚ) : ℕ := (⌊q⌋).toNat

/-- `progress_length` of `render_progress_bar`:
`((current + 1) as f32 / total as f32 * w as f32) as usize`. -/
def progressLength (current total w : ℕ) : ℕ :=
  f32ToUsize (f32Mul (f32Div (natToF32 (current + 1)) (natToF32 total)) (natToF32 w))

/-! ## The rendering functions -/

/-- The glyph `"\u{EACC}"` repeated to draw the filled part of the bar. -/
def blockChar : Char := Char.ofNat 0xEACC

/-- The colour directive selected for a classified line: the theme colour
of its heading, or `Fg(Reset)` (terminal default foreground) for body
text. -/
def colorDir (theme : Colors) : Option Header → Directive
  | some hd => .setFg (hd.color theme)
  | none => .fgReset

/-- The `writeln!` of the body loop for one classified line `r` at
enumerate index `i`: bold, goto column 1 row `i + 4`, colour, display
text, foreground reset, style reset, and the newline of `writeln!`. -/
def lineDirs (theme : Colors) (i : ℕ) (r : Line × Option Header) : List Directive :=
  [.bold, .goto 1 (i + 4), colorDir theme r.2, .text r.1, .fgReset, .styleReset, .text ['\n']]

/-- One iteration of the body loop of `render_slide`: classify, then
write; `none` when the classification `unwrap` panics. -/
def renderLine (theme : Colors) (i : ℕ) (l : Line) : Option (List Directive) :=
  (classifyLine l).map (lineDirs theme i)

/-- The body loop of `render_slide` over the visible lines, with `i` the
enumerate index of the first line of `ls`. -/
def renderLines (theme : Colors) (i : ℕ) : List Line → Option (List Directive)
  | [] => some []
  | l :: ls =>
    (renderLine theme i l).bind fun d =>
      (renderLines theme (i + 1) ls).map fun rest => d ++ rest

/-- The directive list written by `render_text_centered` (for text that
fits): goto column 1 of the target row, bold, colour, the padding spaces,
the text, foreground reset, style reset. -/
def centeredDirs (t : Line) (w yPos : ℕ) (c : Rgb) : List Directive :=
  [.goto 1 yPos, .bold, .setFg c,
   .text (List.replicate ((w - t.length) / 2) ' '), .text t, .fgReset, .styleReset]

/-- `render_text_centered`: left padding `(width - text.len()) / 2` — the
`usize` subtraction panics (debug) when the text is longer than the
terminal width, modelled as `none` (in release builds the subtraction
wraps to a value near `2 ^ 64` and the `" ".repeat(...)` allocation
aborts, so the call fails either way); the row is `height - 1` when
`goto_bottom`, else the queried cursor row `y`. -/
def renderTextCentered (t : Line) (gotoBottom : Bool) (w h y : ℕ) (c : Rgb) :
    Option (List Directive) :=
  if t.length ≤ w then
    some (centeredDirs t w (if gotoBottom then h - 1 else y) c)
  else
    none

/-- The directive list written by `render_progress_bar`: goto column 1 of
the last row, colour, `progress_length` copies of the bar glyph,
foreground reset, then `width - progress_length` spaces and a goto to the
start of the row below. -/
def barDirs (current total w h : ℕ) (c : Rgb) : List Directive :=
  [.goto 1 h, .setFg c, .text (List.replicate (progressLength current total w) blockChar),
   .fgReset, .text (List.replicate (w - progressLength current total w) ' '), .goto 1 (h + 1)]

/-- `render_progress_bar`; the `width as usize - progress_length`
subtraction panics (debug) when the bar is longer than the width
(possible only when the invariant `current < total` is violated),
modelled as `none`. -/
def renderProgressBar (current total w h : ℕ) (c : Rgb) : Option (List Directive) :=
  if progressLength current total w ≤ w then
    some (barDirs current total w h c)
  else
    none

/-- The footer string `format!("{}/{} slides", current + 1, total)`. -/
def footerText (current total : ℕ) : Line :=
  (Nat.repr (current + 1)).toList ++ '/' :: (Nat.repr total).toList ++ (" slides".toList)

/-- The lines of the current slide that the body loop iterates over:
all lines, minus the leading run of lines that are empty or
whitespace-only (`skip_while(|line| line.trim().is_empty())`). -/
def visibleLines (p : Presentation) : List Line :=
  (rustLines p.currentSlideText).dropWhile (fun l => l.all isWS)

/-- `render_slide`: clear and home, title (an `unwrap` — a missing title
panics, modelled as `none`) centered at the cursor row (1 after the home
movement) in the red slot, the body lines, the footer centered on row
`height - 1` in the green slot, the progress bar in the green slot, and a
single final flush. -/
def renderSlide (p : Presentation) (w h : ℕ) : Option (List Directive) :=
  (p.metadata.title).bind fun title =>
    (renderTextCentered title false w h 1 p.theme.red).bind fun titleDs =>
      (renderLines p.theme 0 (visibleLines p)).bind fun bodyDs =>
        (renderTextCentered (footerText p.currentSlide p.totalSlides) true w h 1
            p.theme.green).bind fun footDs =>
          (renderProgressBar p.currentSlide p.totalSlides w h p.theme.green).map fun barDs =>
            [.clearAll, .goto 1 1] ++ titleDs ++ bodyDs ++ footDs ++ barDs ++ [.flush]

/-! ## Concrete sample data for witnesses and counterexamples -/

/-- A sample theme with four distinct colour values. -/
def sampleTheme : Colors :=
  ⟨⟨166, 227, 161⟩, ⟨148, 226, 213⟩, ⟨243, 139, 168⟩, ⟨250, 179, 135⟩⟩

/-- A presentation whose metadata has no title. -/
def noTitlePres : Presentation :=
  { slides := [("# Hello".toList)], currentSlide := 0, metadata := ⟨none⟩,
    theme := sampleTheme }

/-- A presentation (with a title) whose only slide contains a line whose
leading run of hashes has length five. -/
def fiveHashPres : Presentation :=
  { slides := [("##### deep".toList)], currentSlide := 0,
    metadata := ⟨some ("T".toList)⟩, theme := sampleTheme }

/-- Scenario 6 of the spec: a slide with two leading blank lines, then a
heading line and a body line. -/
def scenarioPres : Presentation :=
  { slides := [("\n\n# Heading\nBody".toList)], currentSlide := 0,
    metadata := ⟨some ("Demo".toList)⟩, theme := sampleTheme }

/-- Total wrapper of the classifier, used to instantiate the
classification function of the structural theorems at concrete inputs. -/
def classifyLineD (l : Line) : Line × Option Header :=
  (classifyLine l).getD (l, none)

/-- A one-slide presentation (blank slide, title `"T"`) small enough to
evaluate the full render pipeline concretely. -/
def tinyPres : Presentation :=
  { slides := [[]], currentSlide := 0, metadata := ⟨some ("T".toList)⟩,
    theme := sampleTheme }

/- The Batteries rational-number operations are `@[irreducible]`, which
blocks the evaluation of the `f32` model inside `decide`; restore the
default reducibility for this file so concrete runs reduce. -/
attribute [local semireducible] Rat.mul Rat.inv Rat.add Rat.sub

/-! ## Lemmas about the line classifier -/

theorem byMarker_none_of_length (m : Line) (h : 5 ≤ m.length) : Header.byMarker m = none := by
  unfold Header.byMarker
  split <;> simp_all

theorem takeWhile_hash_eq_replicate (l : Line) :
    l.takeWhile (· == '#') = List.replicate (leadingHashes l) '#' := by
  rw [List.eq_replicate_iff]
  refine ⟨rfl, ?_⟩
  intro b hb
  have := List.mem_takeWhile_imp hb
  simpa using this

theorem dropWhile_hash_eq_drop (l : Line) :
    l.dropWhile (· == '#') = l.drop (leadingHashes l) := by
  have h := List.takeWhile_append_dropWhile (p := (· == '#')) (l := l)
  calc l.dropWhile (· == '#')
      = ((l.takeWhile (· == '#')) ++ l.dropWhile (· == '#')).drop (leadingHashes l) := by
        rw [leadingHashes, List.drop_left]
    _ = l.drop (leadingHashes l) := by rw [h]

theorem head_hash_of_pos (l : Line) (h : 1 ≤ leadingHashes l) : l.head? = some '#' := by
  have h1 := takeWhile_hash_eq_replicate l
  have h2 := List.takeWhile_append_dropWhile (p := (· == '#')) (l := l)
  cases hn : leadingHashes l with
  | zero => omega
  | succ m =>
    rw [hn] at h1
    rw [← h2, h1]
    simp [List.replicate_succ]

/-! ## Lemmas about the f32 model -/

theorem rnE_le (q : ℚ) : (rnE q : ℚ) ≤ q + 1 / 2 := by
  unfold rnE
  have hf : (⌊q⌋ : ℚ) ≤ q := Int.floor_le q
  split_ifs with h1 h2 h3
  · linarith
  · push_cast
    linarith
  · linarith
  · push_cast
    have h4 : q - ⌊q⌋ = 1 / 2 := le_antisymm (not_lt.mp h2) (not_lt.mp h1)
    linarith

theorem le_rnE (q : ℚ) : q - 1 / 2 ≤ (rnE q : ℚ) := by
  unfold rnE
  have hf : q < ⌊q⌋ + 1 := Int.lt_floor_add_one q
  split_ifs with h1 h2 h3
  · linarith
  · push_cast
    linarith
  · have h4 : q - ⌊q⌋ ≤ 1 / 2 := not_lt.mp h2
    linarith
  · push_cast
    have h4 : q - ⌊q⌋ ≤ 1 / 2 := not_lt.mp h2
    linarith

theorem rnE_intCast (n : ℤ) : rnE (n : ℚ) = n := by
  unfold rnE
  rw [Int.floor_intCast]
  rw [if_pos (by norm_num)]

theorem rnE_natCast (n : ℕ) : rnE (n : ℚ) = (n : ℤ) := by
  have h : ((n : ℤ) : ℚ) = (n : ℚ) := by push_cast; ring
  rw [← h, rnE_intCast]

theorem rnE_mono {q₁ q₂ : ℚ} (h : q₁ ≤ q₂) : rnE q₁ ≤ rnE q₂ := by
  by_contra hlt
  push_neg at hlt
  have h1 : (rnE q₂ : ℚ) + 1 ≤ (rnE q₁ : ℚ) := by
    exact_mod_cast Int.add_one_le_iff.mpr hlt
  have h2 := rnE_le q₁
  have h3 := le_rnE q₂
  have heq : q₁ = q₂ := le_antisymm h (by linarith)
  rw [heq] at hlt
  exact lt_irrefl _ hlt

theorem shiftUpF_le (fuel a b : ℕ) (ha : 1 ≤ a) (hfuel : b ≤ a + fuel) :
    b ≤ a * 2 ^ shiftUpF fuel a b := by
  induction fuel generalizing a with
  | zero => simpa [shiftUpF] using hfuel
  | succ n ih =>
    rw [shiftUpF]
    split_ifs with hba
    · simpa using hba
    · have h1 := ih (2 * a) (by omega) (by omega)
      calc b ≤ 2 * a * 2 ^ shiftUpF n (2 * a) b := h1
        _ = a * 2 ^ (1 + shiftUpF n (2 * a) b) := by rw [pow_add]; ring

theorem shiftUp_le (a b : ℕ) (ha : 1 ≤ a) : b ≤ a * 2 ^ shiftUp a b :=
  shiftUpF_le b a b ha (by omega)

theorem shiftUpF_min (fuel a b : ℕ) (h : 1 ≤ shiftUpF fuel a b) :
    a * 2 ^ (shiftUpF fuel a b - 1) < b := by
  induction fuel generalizing a with
  | zero => simp [shiftUpF] at h
  | succ n ih =>
    rw [shiftUpF] at h ⊢
    split_ifs at h ⊢ with hba
    · omega
    · rcases Nat.eq_zero_or_pos (shiftUpF n (2 * a) b) with h0 | hpos
      · rw [h0]
        simpa using by omega
      · have h1 := ih (2 * a) hpos
        have h2 : a * 2 ^ (1 + shiftUpF n (2 * a) b - 1) = 2 * a * 2 ^ (shiftUpF n (2 * a) b - 1) := by
          have h3 : 1 + shiftUpF n (2 * a) b - 1 = (shiftUpF n (2 * a) b - 1) + 1 := by omega
          rw [h3, pow_succ]
          ring
        rw [h2]
        exact h1

theorem shiftUp_min (a b : ℕ) (h : 1 ≤ shiftUp a b) : a * 2 ^ (shiftUp a b - 1) < b :=
  shiftUpF_min b a b h

theorem log2F_spec : ∀ (fuel n : ℕ), 1 ≤ n → n < 2 ^ fuel →
    2 ^ log2F fuel n ≤ n ∧ n < 2 ^ (log2F fuel n + 1) := by
  intro fuel
  induction fuel with
  | zero =>
    intro n h1 h2
    simp at h2
    omega
  | succ f ih =>
    intro n h1 h2
    rw [log2F]
    split_ifs with hn
    · constructor
      · simpa using h1
      · have h3 : n < 2 := by omega
        simpa using h3
    · push_neg at hn
      have hm1 : 1 ≤ n / 2 := by omega
      have hm2 : n / 2 < 2 ^ f := by
        rw [Nat.div_lt_iff_lt_mul (by norm_num)]
        calc n < 2 ^ (f + 1) := h2
          _ = 2 ^ f * 2 := by rw [pow_succ]
      obtain ⟨ihl, ihr⟩ := ih (n / 2) hm1 hm2
      constructor
      · calc 2 ^ (1 + log2F f (n / 2)) = 2 * 2 ^ log2F f (n / 2) := by ring
          _ ≤ 2 * (n / 2) := by omega
          _ ≤ n := by omega
      · calc n < 2 * (n / 2) + 2 := by omega
          _ ≤ 2 * 2 ^ (log2F f (n / 2) + 1) := by omega
          _ = 2 ^ (1 + log2F f (n / 2) + 1) := by ring

theorem natLog2_spec (n : ℕ) (h : 1 ≤ n) :
    2 ^ natLog2 n ≤ n ∧ n < 2 ^ (natLog2 n + 1) :=
  log2F_spec n n h (Nat.lt_two_pow n)

theorem log2Nat_bounds (a b : ℕ) (hb : 1 ≤ b) (hab : b ≤ a) :
    (2 : ℚ) ^ ((natLog2 (a / b) : ℤ)) ≤ (a : ℚ) / (b : ℚ) ∧
      (a : ℚ) / (b : ℚ) < 2 ^ ((natLog2 (a / b) : ℤ) + 1) := by
  have hbQ : (0 : ℚ) < (b : ℚ) := by exact_mod_cast hb
  have hm1 : 1 ≤ a / b := (Nat.one_le_div_iff (by omega)).mpr hab
  have hlow : 2 ^ natLog2 (a / b) ≤ a / b := (natLog2_spec (a / b) hm1).1
  have hhigh : a / b < 2 ^ (natLog2 (a / b) + 1) := (natLog2_spec (a / b) hm1).2
  constructor
  · rw [zpow_natCast]
    calc (2 : ℚ) ^ natLog2 (a / b) ≤ ((a / b : ℕ) : ℚ) := by exact_mod_cast hlow
      _ ≤ (a : ℚ) / (b : ℚ) := Nat.cast_div_le
  · have haq : a < b * (a / b + 1) := by
      have hdm := Nat.div_add_mod a b
      have hmod := Nat.mod_lt a (show 0 < b by omega)
      calc a = b * (a / b) + a % b := hdm.symm
        _ < b * (a / b) + b := by omega
        _ = b * (a / b + 1) := by ring
    have hcast : ((natLog2 (a / b) : ℤ) + 1) = ((natLog2 (a / b) + 1 : ℕ) : ℤ) := by
      push_cast
      ring
    rw [hcast, zpow_natCast, div_lt_iff₀ hbQ]
    calc (a : ℚ) < (b : ℚ) * (((a / b : ℕ) : ℚ) + 1) := by exact_mod_cast haq
      _ ≤ (b : ℚ) * (2 ^ (natLog2 (a / b) + 1)) := by
          have h5 : ((a / b : ℕ) : ℚ) + 1 ≤ (2 : ℚ) ^ (natLog2 (a / b) + 1) := by
            exact_mod_cast hhigh
          exact mul_le_mul_of_nonneg_left h5 hbQ.le
      _ = 2 ^ (natLog2 (a / b) + 1) * (b : ℚ) := mul_comm _ _

theorem shift_bounds (a b : ℕ) (ha : 1 ≤ a) (hab : a < b) :
    (2 : ℚ) ^ (-(shiftUp a b : ℤ)) ≤ (a : ℚ) / (b : ℚ) ∧
      (a : ℚ) / (b : ℚ) < 2 ^ (-(shiftUp a b : ℤ) + 1) := by
  have hbQ : (0 : ℚ) < (b : ℚ) := by exact_mod_cast by omega
  have hup : b ≤ a * 2 ^ shiftUp a b := shiftUp_le a b ha
  have hf1 : 1 ≤ shiftUp a b := by
    by_contra h0
    push_neg at h0
    have h00 : shiftUp a b = 0 := by omega
    rw [h00] at hup
    simp at hup
    omega
  have hmin : a * 2 ^ (shiftUp a b - 1) < b := shiftUp_min a b hf1
  have h2f : (0 : ℚ) < 2 ^ shiftUp a b := by positivity
  have h2f' : (0 : ℚ) < 2 ^ (shiftUp a b - 1) := by positivity
  constructor
  · rw [zpow_neg, zpow_natCast, inv_eq_one_div, div_le_div_iff₀ h2f hbQ, one_mul]
    exact_mod_cast hup
  · have hexp : -(shiftUp a b : ℤ) + 1 = -((shiftUp a b - 1 : ℕ) : ℤ) := by
      push_cast [hf1]
      omega
    rw [hexp, zpow_neg, zpow_natCast, inv_eq_one_div, div_lt_div_iff₀ hbQ h2f', one_mul]
    exact_mod_cast hmin

theorem floorLog2_spec (q : ℚ) (hq : 0 < q) :
    (2 : ℚ) ^ floorLog2 q ≤ q ∧ q < (2 : ℚ) ^ (floorLog2 q + 1) := by
  have hnum : 0 < q.num := Rat.num_pos.mpr hq
  have hdenN : 0 < q.den := q.den_pos
  have ha : ((q.num.toNat : ℤ)) = q.num := Int.toNat_of_nonneg hnum.le
  have ha1 : 1 ≤ q.num.toNat := by omega
  have hqad : (q.num.toNat : ℚ) / (q.den : ℚ) = q := by
    have h1 : ((q.num.toNat : ℚ)) = ((q.num : ℤ) : ℚ) := by exact_mod_cast ha
    rw [h1]
    exact Rat.num_div_den q
  unfold floorLog2
  split_ifs with hcase
  · have hres := log2Nat_bounds q.num.toNat q.den hdenN hcase
    rw [hqad] at hres
    exact hres
  · push_neg at hcase
    have hres := shift_bounds q.num.toNat q.den ha1 hcase
    rw [hqad] at hres
    exact hres

theorem rnE_ge_int {c : ℤ} {x : ℚ} (h : (c : ℚ) ≤ x) : c ≤ rnE x := by
  have h5 := le_rnE x
  have h6 : (((c - 1 : ℤ)) : ℚ) < (rnE x : ℚ) := by
    push_cast
    linarith
  have h7 : c - 1 < rnE x := by exact_mod_cast h6
  omega

theorem rnE_le_int {c : ℤ} {x : ℚ} (h : x < (c : ℚ)) : rnE x ≤ c := by
  have h5 := rnE_le x
  have h6 : ((rnE x : ℤ) : ℚ) < ((c + 1 : ℤ) : ℚ) := by
    push_cast
    linarith
  have h7 : rnE x < c + 1 := by exact_mod_cast h6
  omega

theorem two_zpow23 : ((2 ^ 23 : ℤ) : ℚ) = (2 : ℚ) ^ (23 : ℤ) := by
  rw [show (23 : ℤ) = ((23 : ℕ) : ℤ) from rfl, zpow_natCast]
  push_cast
  ring

theorem two_zpow24 : ((2 ^ 24 : ℤ) : ℚ) = (2 : ℚ) ^ (24 : ℤ) := by
  rw [show (24 : ℤ) = ((24 : ℕ) : ℤ) from rfl, zpow_natCast]
  push_cast
  ring

theorem round32_eq (q : ℚ) (hq : 0 < q) :
    round32 q = (rnE (q * 2 ^ (23 - floorLog2 q)) : ℚ) * 2 ^ (floorLog2 q - 23) := by
  rw [round32, if_neg (not_le.mpr hq)]

theorem round32_lb (q : ℚ) (hq : 0 < q) : (2 : ℚ) ^ floorLog2 q ≤ round32 q := by
  obtain ⟨h1, _⟩ := floorLog2_spec q hq
  have hpow : (0 : ℚ) < 2 ^ (23 - floorLog2 q) := zpow_pos (by norm_num) _
  have hsplit : (2 : ℚ) ^ (23 : ℤ) = 2 ^ floorLog2 q * 2 ^ (23 - floorLog2 q) := by
    rw [← zpow_add₀ (two_ne_zero (α := ℚ))]
    congr 1
    ring
  have hxlb : ((2 ^ 23 : ℤ) : ℚ) ≤ q * 2 ^ (23 - floorLog2 q) := by
    rw [two_zpow23, hsplit]
    exact mul_le_mul_of_nonneg_right h1 hpow.le
  have hr : (2 ^ 23 : ℤ) ≤ rnE (q * 2 ^ (23 - floorLog2 q)) := rnE_ge_int hxlb
  have hr' : ((2 ^ 23 : ℤ) : ℚ) ≤ (rnE (q * 2 ^ (23 - floorLog2 q)) : ℚ) := by exact_mod_cast hr
  have hpow2 : (0 : ℚ) < 2 ^ (floorLog2 q - 23) := zpow_pos (by norm_num) _
  rw [round32_eq q hq]
  calc (2 : ℚ) ^ floorLog2 q = (2 : ℚ) ^ (23 : ℤ) * 2 ^ (floorLog2 q - 23) := by
        rw [← zpow_add₀ (two_ne_zero (α := ℚ))]
        congr 1
        ring
    _ ≤ (rnE (q * 2 ^ (23 - floorLog2 q)) : ℚ) * 2 ^ (floorLog2 q - 23) := by
        rw [← two_zpow23]
        exact mul_le_mul_of_nonneg_right hr' hpow2.le

theorem round32_ub (q : ℚ) (hq : 0 < q) : round32 q ≤ (2 : ℚ) ^ (floorLog2 q + 1) := by
  obtain ⟨_, h2⟩ := floorLog2_spec q hq
  have hpow : (0 : ℚ) < 2 ^ (23 - floorLog2 q) := zpow_pos (by norm_num) _
  have hxub : q * 2 ^ (23 - floorLog2 q) < ((2 ^ 24 : ℤ) : ℚ) := by
    rw [two_zpow24]
    calc q * 2 ^ (23 - floorLog2 q) < 2 ^ (floorLog2 q + 1) * 2 ^ (23 - floorLog2 q) :=
          mul_lt_mul_of_pos_right h2 hpow
      _ = 2 ^ (24 : ℤ) := by
          rw [← zpow_add₀ (two_ne_zero (α := ℚ))]
          congr 1
          ring
  have hr : rnE (q * 2 ^ (23 - floorLog2 q)) ≤ 2 ^ 24 := rnE_le_int hxub
  have hr' : (rnE (q * 2 ^ (23 - floorLog2 q)) : ℚ) ≤ ((2 ^ 24 : ℤ) : ℚ) := by exact_mod_cast hr
  have hpow2 : (0 : ℚ) ≤ 2 ^ (floorLog2 q - 23) := (zpow_pos (a := (2 : ℚ)) (by norm_num) _).le
  rw [round32_eq q hq]
  calc (rnE (q * 2 ^ (23 - floorLog2 q)) : ℚ) * 2 ^ (floorLog2 q - 23)
      ≤ ((2 ^ 24 : ℤ) : ℚ) * 2 ^ (floorLog2 q - 23) := mul_le_mul_of_nonneg_right hr' hpow2
    _ = 2 ^ (floorLog2 q + 1) := by
        rw [two_zpow24, ← zpow_add₀ (two_ne_zero (α := ℚ))]
        congr 1
        ring

theorem round32_pos (q : ℚ) (hq : 0 < q) : 0 < round32 q :=
  lt_of_lt_of_le (zpow_pos (by norm_num) _) (round32_lb q hq)

theorem round32_mono {q₁ q₂ : ℚ} (h1 : 0 < q₁) (h : q₁ ≤ q₂) : round32 q₁ ≤ round32 q₂ := by
  have h2 : 0 < q₂ := lt_of_lt_of_le h1 h
  obtain ⟨l1, u1⟩ := floorLog2_spec q₁ h1
  obtain ⟨l2, u2⟩ := floorLog2_spec q₂ h2
  have he : floorLog2 q₁ ≤ floorLog2 q₂ := by
    by_contra hc
    push_neg at hc
    have hle : floorLog2 q₂ + 1 ≤ floorLog2 q₁ := Int.add_one_le_iff.mpr hc
    have hz : (2 : ℚ) ^ (floorLog2 q₂ + 1) ≤ 2 ^ floorLog2 q₁ :=
      zpow_le_zpow_right₀ (by norm_num) hle
    linarith
  rcases eq_or_lt_of_le he with heq | hlt
  · rw [round32_eq q₁ h1, round32_eq q₂ h2, ← heq]
    apply mul_le_mul_of_nonneg_right
    · have hmul := rnE_mono (mul_le_mul_of_nonneg_right h
        (zpow_pos (a := (2 : ℚ)) (by norm_num) (23 - floorLog2 q₁)).le)
      exact_mod_cast hmul
    · exact (zpow_pos (a := (2 : ℚ)) (by norm_num) _).le
  · have s1 := round32_ub q₁ h1
    have s2 := round32_lb q₂ h2
    have s3 : (2 : ℚ) ^ (floorLog2 q₁ + 1) ≤ 2 ^ floorLog2 q₂ := by
      apply zpow_le_zpow_right₀ (by norm_num)
      omega
    linarith

theorem round32_natCast (n : ℕ) (h1 : 1 ≤ n) (h2 : n < 2 ^ 24) : round32 (n : ℚ) = n := by
  have hq : (0 : ℚ) < n := by exact_mod_cast h1
  have hfl : floorLog2 (n : ℚ) = (natLog2 n : ℤ) := by
    unfold floorLog2
    rw [Rat.num_natCast, Rat.den_natCast, Int.toNat_natCast, if_pos h1, Nat.div_one]
  have htle : natLog2 n ≤ 23 := by
    have hl := (natLog2_spec n h1).1
    have h24 : (2 : ℕ) ^ natLog2 n < 2 ^ 24 := lt_of_le_of_lt hl h2
    have := (Nat.pow_lt_pow_iff_right (by norm_num : 1 < 2)).mp h24
    omega
  rw [round32_eq _ hq, hfl]
  have hexp : (23 : ℤ) - (natLog2 n : ℤ) = ((23 - natLog2 n : ℕ) : ℤ) := by omega
  rw [hexp, zpow_natCast]
  have hx : (n : ℚ) * (2 : ℚ) ^ (23 - natLog2 n : ℕ) = (((n * 2 ^ (23 - natLog2 n) : ℕ)) : ℚ) := by
    push_cast
    ring
  rw [hx, rnE_natCast]
  push_cast
  rw [mul_assoc, ← zpow_natCast (2 : ℚ) (23 - natLog2 n), ← zpow_add₀ (two_ne_zero (α := ℚ))]
  have hzero : ((23 - natLog2 n : ℕ) : ℤ) + ((natLog2 n : ℤ) - 23) = 0 := by omega
  rw [hzero, zpow_zero, mul_one]

theorem round32_one : round32 1 = 1 := by
  have h := round32_natCast 1 (le_refl 1) (by norm_num)
  simpa using h

theorem natToF32_zero : natToF32 0 = 0 := by
  simp [natToF32, round32]

theorem natToF32_pos (n : ℕ) (h : 1 ≤ n) : 0 < natToF32 n :=
  round32_pos _ (by exact_mod_cast h)

theorem natToF32_mono {m n : ℕ} (hm : 1 ≤ m) (h : m ≤ n) : natToF32 m ≤ natToF32 n :=
  round32_mono (by exact_mod_cast hm) (by exact_mod_cast h)

theorem natToF32_small (n : ℕ) (h1 : 1 ≤ n) (h2 : n < 2 ^ 24) : natToF32 n = n :=
  round32_natCast n h1 h2

theorem f32ToUsize_le_nat {q : ℚ} {n : ℕ} (h : q ≤ n) : f32ToUsize q ≤ n := by
  rw [f32ToUsize]
  have h1 : ⌊q⌋ ≤ (n : ℤ) := by
    have h2 := Int.floor_mono h
    rwa [Int.floor_natCast] at h2
  omega

theorem f32ToUsize_natCast (n : ℕ) : f32ToUsize (n : ℚ) = n := by
  rw [f32ToUsize, Int.floor_natCast, Int.toNat_natCast]

theorem f32Div_le_one {a b : ℚ} (ha : 0 < a) (hab : a ≤ b) : f32Div a b ≤ 1 := by
  have hb : 0 < b := lt_of_lt_of_le ha hab
  have hle : a / b ≤ 1 := (div_le_one hb).mpr hab
  have hpos : 0 < a / b := div_pos ha hb
  calc f32Div a b = round32 (a / b) := rfl
    _ ≤ round32 1 := round32_mono hpos hle
    _ = 1 := round32_one

theorem f32Div_pos {a b : ℚ} (ha : 0 < a) (hb : 0 < b) : 0 < f32Div a b :=
  round32_pos _ (div_pos ha hb)

theorem progressLength_zero_w (current total : ℕ) : progressLength current total 0 = 0 := by
  simp [progressLength, natToF32_zero, f32Mul, f32ToUsize, round32]

theorem progressLength_le (current total w : ℕ) (h : current < total) (hw : w ≤ 65535) :
    progressLength current total w ≤ w := by
  rcases Nat.eq_zero_or_pos w with hw0 | hw1
  · rw [hw0, progressLength_zero_w]
  · have hk : (0 : ℚ) < natToF32 (current + 1) := natToF32_pos _ (by omega)
    have hn : natToF32 (current + 1) ≤ natToF32 total := natToF32_mono (by omega) (by omega)
    have hnpos : (0 : ℚ) < natToF32 total := natToF32_pos _ (by omega)
    have hr1 : f32Div (natToF32 (current + 1)) (natToF32 total) ≤ 1 := f32Div_le_one hk hn
    have hr0 : 0 < f32Div (natToF32 (current + 1)) (natToF32 total) := f32Div_pos hk hnpos
    have hwq : natToF32 w = (w : ℚ) := natToF32_small w hw1 (by omega)
    have hwpos : (0 : ℚ) < natToF32 w := natToF32_pos _ hw1
    have hprod : f32Mul (f32Div (natToF32 (current + 1)) (natToF32 total)) (natToF32 w) ≤ (w : ℚ) := by
      have hle : f32Div (natToF32 (current + 1)) (natToF32 total) * natToF32 w ≤ natToF32 w := by
        have h6 := mul_le_mul_of_nonneg_right hr1 hwpos.le
        rwa [one_mul] at h6
      calc f32Mul (f32Div (natToF32 (current + 1)) (natToF32 total)) (natToF32 w)
          = round32 (f32Div (natToF32 (current + 1)) (natToF32 total) * natToF32 w) := rfl
        _ ≤ round32 (natToF32 w) := round32_mono (mul_pos hr0 hwpos) hle
        _ = (w : ℚ) := by
            rw [hwq]
            exact round32_natCast w hw1 (by omega)
    exact f32ToUsize_le_nat hprod

theorem progressLength_last (total w : ℕ) (h : 1 ≤ total) (hw : w ≤ 65535) :
    progressLength (total - 1) total w = w := by
  have hk : total - 1 + 1 = total := by omega
  rw [progressLength, hk]
  have hn : (0 : ℚ) < natToF32 total := natToF32_pos _ h
  have hdiv : f32Div (natToF32 total) (natToF32 total) = 1 := by
    rw [f32Div, div_self (ne_of_gt hn), round32_one]
  rw [hdiv]
  rcases Nat.eq_zero_or_pos w with hw0 | hw1
  · subst hw0
    simp [natToF32_zero, f32Mul, round32, f32ToUsize]
  · have hwq : natToF32 w = (w : ℚ) := natToF32_small w hw1 (by omega)
    rw [f32Mul, one_mul, hwq, round32_natCast w hw1 (by omega), f32ToUsize_natCast]

theorem progressLength_mono (i j total w : ℕ) (hij : i ≤ j) (hj : j < total) :
    progressLength i total w ≤ progressLength j total w := by
  rcases Nat.eq_zero_or_pos w with hw0 | hw1
  · rw [hw0, progressLength_zero_w, progressLength_zero_w]
  · have hki : (0 : ℚ) < natToF32 (i + 1) := natToF32_pos _ (by omega)
    have hnpos : (0 : ℚ) < natToF32 total := natToF32_pos _ (by omega)
    have hkij : natToF32 (i + 1) ≤ natToF32 (j + 1) := natToF32_mono (by omega) (by omega)
    have hdiv : f32Div (natToF32 (i + 1)) (natToF32 total) ≤
        f32Div (natToF32 (j + 1)) (natToF32 total) := by
      apply round32_mono (div_pos hki hnpos)
      gcongr
    have hdivi : 0 < f32Div (natToF32 (i + 1)) (natToF32 total) := f32Div_pos hki hnpos
    have hwpos : (0 : ℚ) < natToF32 w := natToF32_pos _ hw1
    have hmul : f32Mul (f32Div (natToF32 (i + 1)) (natToF32 total)) (natToF32 w)
        ≤ f32Mul (f32Div (natToF32 (j + 1)) (natToF32 total)) (natToF32 w) := by
      apply round32_mono (mul_pos hdivi hwpos)
      exact mul_le_mul_of_nonneg_right hdiv hwpos.le
    unfold progressLength f32ToUsize
    have hfl := Int.floor_mono hmul
    omega

/-! ## Structure of the emitted directive stream -/

theorem renderLines_eq (theme : Colors) (cls : Line → Line × Option Header) :
    ∀ (ls : List Line) (i : ℕ), (∀ l ∈ ls, classifyLine l = some (cls l)) →
      renderLines theme i ls =
        some (((ls.enumFrom i).map (fun q => lineDirs theme q.1 (cls q.2))).flatten) := by
  intro ls
  induction ls with
  | nil =>
    intro i h
    simp [renderLines]
  | cons l ls ih =>
    intro i h
    have hl : classifyLine l = some (cls l) := h l (by simp)
    have hrest := ih (i + 1) (fun x hx => h x (by simp [hx]))
    simp [renderLines, renderLine, hl, hrest, List.enumFrom]

theorem renderSlide_eq (p : Presentation) (w h : ℕ) (t : Line)
    (cls : Line → Line × Option Header)
    (htitle : p.metadata.title = some t)
    (hlen : t.length ≤ w)
    (hcls : ∀ l ∈ visibleLines p, classifyLine l = some (cls l))
    (hfoot : (footerText p.currentSlide p.totalSlides).length ≤ w)
    (hidx : p.currentSlide < p.totalSlides)
    (hw : w ≤ 65535) :
    renderSlide p w h =
      some ([.clearAll, .goto 1 1]
        ++ centeredDirs t w 1 p.theme.red
        ++ (((visibleLines p).enum.map (fun q => lineDirs p.theme q.1 (cls q.2))).flatten)
        ++ centeredDirs (footerText p.currentSlide p.totalSlides) w (h - 1) p.theme.green
        ++ barDirs p.currentSlide p.totalSlides w h p.theme.green
        ++ [.flush]) := by
  have hbar : progressLength p.currentSlide p.totalSlides w ≤ w :=
    progressLength_le _ _ _ hidx hw
  have hbody := renderLines_eq p.theme cls (visibleLines p) 0 hcls
  simp [renderSlide, htitle, renderTextCentered, renderProgressBar, hlen, hfoot, hbar, hbody,
    List.enum]

theorem flush_not_mem_lineDirs (theme : Colors) (i : ℕ) (r : Line × Option Header) :
    Directive.flush ∉ lineDirs theme i r := by
  rcases r with ⟨d, hdr⟩
  rcases hdr with _ | hd
  · simp [lineDirs, colorDir]
  · simp [lineDirs, colorDir]

theorem flush_not_mem_renderLines (theme : Colors) :
    ∀ (ls : List Line) (i : ℕ) (ds : List Directive),
      renderLines theme i ls = some ds → Directive.flush ∉ ds := by
  intro ls
  induction ls with
  | nil =>
    intro i ds h
    simp only [renderLines, Option.some.injEq] at h
    subst h
    simp
  | cons l ls ih =>
    intro i ds h
    simp only [renderLines, renderLine, Option.map_eq_some', Option.bind_eq_some,
      Option.some.injEq] at h
    obtain ⟨d, ⟨r, hr, hd⟩, rest, hrest, hds⟩ := h
    rw [← hds, ← hd]
    simp only [List.mem_append, not_or]
    exact ⟨flush_not_mem_lineDirs theme i r, ih (i + 1) rest hrest⟩

theorem renderTextCentered_some {t : Line} {gb : Bool} {w h y : ℕ} {c : Rgb}
    {ds : List Directive} (hds : renderTextCentered t gb w h y c = some ds) :
    ds = centeredDirs t w (if gb then h - 1 else y) c := by
  by_cases hc : t.length ≤ w
  · rw [renderTextCentered, if_pos hc] at hds
    simpa using hds.symm
  · rw [renderTextCentered, if_neg hc] at hds
    simp at hds

theorem renderProgressBar_some {cur total w h : ℕ} {c : Rgb} {ds : List Directive}
    (hds : renderProgressBar cur total w h c = some ds) :
    ds = barDirs cur total w h c := by
  by_cases hc : progressLength cur total w ≤ w
  · rw [renderProgressBar, if_pos hc] at hds
    simpa using hds.symm
  · rw [renderProgressBar, if_neg hc] at hds
    simp at hds

/-! ## Claim C1 -/

/-- C1 (counterexample): the claim says a line whose leading hash run has
length `n ≥ 5` is classified as body text with the raw line unchanged and
that classification never fails; on the code, `header_by_prefix` returns
`None` for the marker `"#####"` and the `unwrap` in `render_slide` panics
(`classifyLine _ = none`), so the line is not returned as body text. -/
theorem c1_counterexample :
    classifyLine ('#' :: '#' :: '#' :: '#' :: '#' :: []) = none ∧
      classifyLine ('#' :: '#' :: '#' :: '#' :: '#' :: []) ≠
        some (('#' :: '#' :: '#' :: '#' :: '#' :: []), none) := by
  constructor
  · decide
  · decide

/-- C1 (amended): for every line whose leading run of hash characters has
length at least 5, the classification step of `render_slide` fails (the
`header_by_prefix(...).unwrap()` panics); classification is not total on
such lines, and no body text is produced for them. -/
theorem c1_amended (l : Line) (h : 5 ≤ leadingHashes l) : classifyLine l = none := by
  have hh : l.head? = some '#' := head_hash_of_pos l (by omega)
  have hm : Header.byMarker (extractHashes l).1 = none := by
    apply byMarker_none_of_length
    have hlen : (extractHashes l).1.length = leadingHashes l := rfl
    omega
  simp [classifyLine, hh, hm]

/-- C1 (witness): the amended claim evaluated on the six-hash line. -/
theorem c1_witness :
    5 ≤ leadingHashes ('#' :: '#' :: '#' :: '#' :: '#' :: '#' :: []) ∧
      classifyLine ('#' :: '#' :: '#' :: '#' :: '#' :: '#' :: []) = none :=
  ⟨by decide, c1_amended _ (by decide)⟩

/-! ## Claim C2 -/

/-- C2 (counterexample): the claim says a presentation with no title
renders with the title step skipped and body, footer and progress bar
still emitted; on the code `presentation.metadata.title.as_ref().unwrap()`
panics, so nothing at all is emitted (`renderSlide _ = none`). -/
theorem c2_counterexample : renderSlide noTitlePres 80 24 = none := by
  decide

/-- C2 (amended): for every presentation whose metadata carries no title,
`render_slide` panics at the title `unwrap` before emitting anything; an
absent title is a failure, not a skipped step. -/
theorem c2_amended (p : Presentation) (w h : ℕ) (htitle : p.metadata.title = none) :
    renderSlide p w h = none := by
  simp [renderSlide, htitle]

/-- C2 (witness): the amended claim evaluated on a concrete title-less
presentation. -/
theorem c2_witness :
    noTitlePres.metadata.title = none ∧ renderSlide noTitlePres 80 24 = none :=
  ⟨rfl, c2_amended noTitlePres 80 24 rfl⟩

/-! ## Claim C3 -/

/-- C3 (counterexample): the claim says a text longer than the width is
not an error and simply overflows to the right, the padding computation
never failing; on the code `(width as usize - text.len())` underflows
(panic in debug, an absurd near-`2^64` padding allocation in release), so
the call fails instead of overflowing. -/
theorem c3_counterexample :
    renderTextCentered ("abcdef".toList) false 5 24 1 ⟨0, 0, 0⟩ = none := by
  decide

/-- C3 (amended): for a centered text of length `L` and width `W`, when
`L ≤ W` the emitted left padding is exactly `⌊(W - L) / 2⌋` spaces before
the text; when `L > W` the `usize` subtraction underflows and the call
fails — the text is not rendered at all. -/
theorem c3_amended (t : Line) (b : Bool) (w h y : ℕ) (c : Rgb) :
    (t.length ≤ w →
      renderTextCentered t b w h y c =
        some [.goto 1 (if b then h - 1 else y), .bold, .setFg c,
          .text (List.replicate ((w - t.length) / 2) ' '), .text t, .fgReset, .styleReset]) ∧
    (w < t.length → renderTextCentered t b w h y c = none) := by
  constructor
  · intro hle
    rw [renderTextCentered, if_pos hle]
    rfl
  · intro hlt
    rw [renderTextCentered, if_neg (by omega)]

/-- C3 (witness): both branches of the amended claim at concrete inputs;
the first is scenario 4 of the spec (width 80, title "Demo", padding 38). -/
theorem c3_witness :
    (("Demo".toList).length ≤ 80 ∧
      renderTextCentered ("Demo".toList) false 80 24 1 ⟨1, 2, 3⟩ =
        some [.goto 1 (if false then 24 - 1 else 1), .bold, .setFg ⟨1, 2, 3⟩,
          .text (List.replicate ((80 - ("Demo".toList).length) / 2) ' '),
          .text ("Demo".toList), .fgReset, .styleReset]) ∧
    (5 < ("abcdef".toList).length ∧
      renderTextCentered ("abcdef".toList) true 5 24 1 ⟨1, 2, 3⟩ = none) :=
  ⟨⟨by decide, (c3_amended ("Demo".toList) false 80 24 1 ⟨1, 2, 3⟩).1 (by decide)⟩,
    ⟨by decide, (c3_amended ("abcdef".toList) true 5 24 1 ⟨1, 2, 3⟩).2 (by decide)⟩⟩

/-! ## Claim C5 -/

/-- C5: for every line whose leading run of hash characters has length
`n` with `1 ≤ n ≤ 4`, classification yields a heading of level `n`, and
the display text is the remainder of the line after removing exactly the
`n` leading hashes and then stripping leading whitespace only (trailing
whitespace survives `dropWhile` untouched). -/
theorem c5_heading (l : Line) (n : ℕ) (h1 : 1 ≤ n) (h2 : n ≤ 4)
    (h3 : leadingHashes l = n) :
    ∃ hd, Header.level hd = n ∧
      classifyLine l = some ((l.drop n).dropWhile isWS, some hd) := by
  have hh : l.head? = some '#' := head_hash_of_pos l (by omega)
  have htw : l.takeWhile (· == '#') = List.replicate n '#' := by
    rw [takeWhile_hash_eq_replicate, h3]
  have hdw : l.dropWhile (· == '#') = l.drop n := by
    rw [dropWhile_hash_eq_drop, h3]
  have hex1 : (extractHashes l).1 = List.replicate n '#' := by
    simp [extractHashes, htw]
  have hex2 : (extractHashes l).2 = (l.drop n).dropWhile isWS := by
    simp [extractHashes, hdw]
  interval_cases n
  · exact ⟨.header1, rfl, by simp [classifyLine, hh, hex1, hex2, Header.byMarker, List.replicate]⟩
  · exact ⟨.header2, rfl, by simp [classifyLine, hh, hex1, hex2, Header.byMarker, List.replicate]⟩
  · exact ⟨.header3, rfl, by simp [classifyLine, hh, hex1, hex2, Header.byMarker, List.replicate]⟩
  · exact ⟨.header4, rfl, by simp [classifyLine, hh, hex1, hex2, Header.byMarker, List.replicate]⟩

/-- C5 (witness): scenario 2 of the spec, `"###   Sub  "`: level 3, display
text `"Sub  "` with the trailing spaces preserved. -/
theorem c5_witness :
    leadingHashes ("###   Sub  ".toList) = 3 ∧
      ∃ hd, Header.level hd = 3 ∧
        classifyLine ("###   Sub  ".toList) =
          some (((("###   Sub  ".toList)).drop 3).dropWhile isWS, some hd) :=
  ⟨by decide, c5_heading ("###   Sub  ".toList) 3 (by decide) (by decide) (by decide)⟩

/-! ## Claim C4 -/

/-- C4 (counterexample): the claim says the bar fill is
`⌊((idx + 1) / total) * W⌋` computed over the reals; the code computes it
in `f32`.  At `idx = 1023`, `total = 2 ^ 24 + 1`, `W = 16384` the `f32`
pipeline yields 1 (`total as f32` rounds to `2 ^ 24`, making the ratio
exactly `2 ^ -14`), while the real-valued formula gives
`⌊1024 * 16384 / 16777217⌋ = 0`. -/
theorem c4_counterexample :
    progressLength 1023 16777217 16384 = 1 ∧ (1023 + 1) * 16384 / 16777217 = 0 := by
  constructor
  · decide
  · decide

/-- C4 (amended): the fill length is the `f32` computation
`((idx + 1) as f32 / total as f32 * W as f32) as usize` (which can differ
from the exact `⌊((idx + 1) / total) * W⌋`); with that definition, the bar
is drawn at column 1 of the last row as `filled` block glyphs followed by
exactly `W - filled` spaces and a cursor move to the start of the row
below, `filled` is monotonically non-decreasing in `idx` for fixed
`total` and `W`, and at `idx = total - 1` the bar is full
(`filled = W`).  The bounds `total < 2 ^ 64` (a `usize`) and `w ≤ 65535`,
`h < 65535` (a `u16`) delimit the range on which the `f32` model is
exact. -/
theorem c4_amended (idx total w h : ℕ) (c : Rgb)
    (hidx : idx < total) (_htot : total < 2 ^ 64) (hw : w ≤ 65535) (_hh : h < 65535) :
    renderProgressBar idx total w h c =
      some [.goto 1 h, .setFg c,
        .text (List.replicate (progressLength idx total w) blockChar), .fgReset,
        .text (List.replicate (w - progressLength idx total w) ' '), .goto 1 (h + 1)] ∧
    (∀ i j, i ≤ j → j < total →
      progressLength i total w ≤ progressLength j total w) ∧
    progressLength (total - 1) total w = w := by
  refine ⟨?_, ?_, ?_⟩
  · rw [renderProgressBar, if_pos (progressLength_le idx total w hidx hw)]
    rfl
  · intro i j hij hj
    exact progressLength_mono i j total w hij hj
  · exact progressLength_last total w (by omega) hw

/-- C4 (witness): scenario 5 of the spec — slide index 2 of 4 at width
100 fills 75 cells — together with the amended claim instantiated
there. -/
theorem c4_witness :
    progressLength 2 4 100 = 75 ∧
    (2 < 4 ∧ (4 : ℕ) < 2 ^ 64 ∧ (100 : ℕ) ≤ 65535 ∧ (24 : ℕ) < 65535) ∧
    (renderProgressBar 2 4 100 24 sampleTheme.green =
      some [.goto 1 24, .setFg sampleTheme.green,
        .text (List.replicate (progressLength 2 4 100) blockChar), .fgReset,
        .text (List.replicate (100 - progressLength 2 4 100) ' '), .goto 1 25] ∧
      (∀ i j, i ≤ j → j < 4 → progressLength i 4 100 ≤ progressLength j 4 100) ∧
      progressLength (4 - 1) 4 100 = 100) :=
  ⟨by decide, ⟨by decide, by decide, by decide, by decide⟩,
    c4_amended 2 4 100 24 sampleTheme.green (by decide) (by decide) (by decide) (by decide)⟩

/-! ## Claim C6 -/

/-- C6 (counterexample): the claim says every slide text is split into
lines, the leading blank lines skipped, and each remaining line rendered
at row `i + 4`; for the slide `"##### deep"` (with a title present) the
first remaining line makes the classification `unwrap` panic, so nothing
is rendered at all instead of the line appearing at row 4. -/
theorem c6_counterexample : renderSlide fiveHashPres 80 24 = none := by
  decide

/-- C6 (amended): provided the render call completes — the title is
present and fits, every line after the leading-blank skip classifies
without panicking (captured by the classification function `cls`), the
footer fits, and the slide index is in range — `render_slide` splits the
current slide's text into lines, skips exactly the leading
empty-or-whitespace-only lines, and renders the `i`-th remaining line at
row `i + 4`, column 1, one row per line in order; a fully blank slide
renders no body rows and is not an error. -/
theorem c6_amended (p : Presentation) (w h : ℕ) (t : Line)
    (cls : Line → Line × Option Header)
    (htitle : p.metadata.title = some t)
    (hlen : t.length ≤ w)
    (hcls : ∀ l ∈ visibleLines p, classifyLine l = some (cls l))
    (hfoot : (footerText p.currentSlide p.totalSlides).length ≤ w)
    (hidx : p.currentSlide < p.totalSlides)
    (hw : w ≤ 65535) :
    visibleLines p = (rustLines p.currentSlideText).dropWhile (fun l => l.all isWS) ∧
    renderSlide p w h =
      some ([.clearAll, .goto 1 1]
        ++ centeredDirs t w 1 p.theme.red
        ++ (((visibleLines p).enum.map (fun q =>
              [.bold, .goto 1 (q.1 + 4), colorDir p.theme (cls q.2).2,
               .text (cls q.2).1, .fgReset, .styleReset, .text ['\n']])).flatten)
        ++ centeredDirs (footerText p.currentSlide p.totalSlides) w (h - 1) p.theme.green
        ++ barDirs p.currentSlide p.totalSlides w h p.theme.green
        ++ [.flush]) ∧
    (visibleLines p = [] →
      renderSlide p w h =
        some ([.clearAll, .goto 1 1]
          ++ centeredDirs t w 1 p.theme.red
          ++ centeredDirs (footerText p.currentSlide p.totalSlides) w (h - 1) p.theme.green
          ++ barDirs p.currentSlide p.totalSlides w h p.theme.green
          ++ [.flush])) := by
  have hmain := renderSlide_eq p w h t cls htitle hlen hcls hfoot hidx hw
  refine ⟨rfl, ?_, ?_⟩
  · simpa [lineDirs] using hmain
  · intro hvis
    rw [hmain, hvis]
    simp

/-- C6 (witness): scenario 6 of the spec — slide `"\n\n# Heading\nBody"`:
the two leading blank lines are skipped, `"Heading"` goes to row 4,
`"Body"` to row 5. -/
theorem c6_witness :
    (scenarioPres.metadata.title = some ("Demo".toList) ∧
      ("Demo".toList).length ≤ 80 ∧
      (∀ l ∈ visibleLines scenarioPres, classifyLine l = some (classifyLineD l)) ∧
      (footerText scenarioPres.currentSlide scenarioPres.totalSlides).length ≤ 80 ∧
      scenarioPres.currentSlide < scenarioPres.totalSlides ∧ (80 : ℕ) ≤ 65535) ∧
    (visibleLines scenarioPres =
        (rustLines scenarioPres.currentSlideText).dropWhile (fun l => l.all isWS) ∧
      renderSlide scenarioPres 80 24 =
        some ([.clearAll, .goto 1 1]
          ++ centeredDirs ("Demo".toList) 80 1 scenarioPres.theme.red
          ++ (((visibleLines scenarioPres).enum.map (fun q =>
                [.bold, .goto 1 (q.1 + 4), colorDir scenarioPres.theme (classifyLineD q.2).2,
                 .text (classifyLineD q.2).1, .fgReset, .styleReset, .text ['\n']])).flatten)
          ++ centeredDirs (footerText scenarioPres.currentSlide scenarioPres.totalSlides) 80
              (24 - 1) scenarioPres.theme.green
          ++ barDirs scenarioPres.currentSlide scenarioPres.totalSlides 80 24
              scenarioPres.theme.green
          ++ [.flush]) ∧
      (visibleLines scenarioPres = [] →
        renderSlide scenarioPres 80 24 =
          some ([.clearAll, .goto 1 1]
            ++ centeredDirs ("Demo".toList) 80 1 scenarioPres.theme.red
            ++ centeredDirs (footerText scenarioPres.currentSlide scenarioPres.totalSlides) 80
                (24 - 1) scenarioPres.theme.green
            ++ barDirs scenarioPres.currentSlide scenarioPres.totalSlides 80 24
                scenarioPres.theme.green
            ++ [.flush]))) :=
  ⟨⟨rfl, by decide, by decide, by decide, by decide, by decide⟩,
    c6_amended scenarioPres 80 24 ("Demo".toList) classifyLineD rfl (by decide) (by decide)
      (by decide) (by decide) (by decide)⟩

/-! ## Claim C7 -/

/-- C7: for every body line that `render_slide` actually renders, a
heading of level 1, 2, 3 or 4 is drawn bold in the theme's green, teal,
red or peach slot respectively, a non-heading line is drawn bold with the
terminal's default foreground colour (`Fg(Reset)`), and after the line's
text both the foreground colour and the style are reset. -/
theorem c7_line_colors (theme : Colors) (i : ℕ) (l : Line) (ds : List Directive)
    (h : renderLine theme i l = some ds) :
    (∀ disp hd, classifyLine l = some (disp, some hd) →
      ds = [.bold, .goto 1 (i + 4), .setFg (hd.color theme), .text disp,
            .fgReset, .styleReset, .text ['\n']] ∧
      (hd.level = 1 → hd.color theme = theme.green) ∧
      (hd.level = 2 → hd.color theme = theme.teal) ∧
      (hd.level = 3 → hd.color theme = theme.red) ∧
      (hd.level = 4 → hd.color theme = theme.peach)) ∧
    (∀ disp, classifyLine l = some (disp, none) →
      ds = [.bold, .goto 1 (i + 4), .fgReset, .text disp, .fgReset, .styleReset,
            .text ['\n']]) := by
  constructor
  · intro disp hd hcl
    have hds : ds = lineDirs theme i (disp, some hd) := by
      rw [renderLine, hcl] at h
      simpa using h.symm
    subst hds
    refine ⟨by simp [lineDirs, colorDir], ?_, ?_, ?_, ?_⟩ <;>
      cases hd <;> simp [Header.level, Header.color]
  · intro disp hcl
    have hds : ds = lineDirs theme i (disp, none) := by
      rw [renderLine, hcl] at h
      simpa using h.symm
    subst hds
    simp [lineDirs, colorDir]

/-- C7 (witness): the heading line `"# Title"` rendered at enumerate
index 0 of the sample theme. -/
theorem c7_witness :
    renderLine sampleTheme 0 ("# Title".toList) =
      some [.bold, .goto 1 4, .setFg ⟨166, 227, 161⟩, .text ("Title".toList),
            .fgReset, .styleReset, .text ['\n']] ∧
    ((∀ disp hd, classifyLine ("# Title".toList) = some (disp, some hd) →
      [Directive.bold, .goto 1 4, .setFg ⟨166, 227, 161⟩, .text ("Title".toList),
        .fgReset, .styleReset, .text ['\n']] =
        [.bold, .goto 1 (0 + 4), .setFg (hd.color sampleTheme), .text disp,
          .fgReset, .styleReset, .text ['\n']] ∧
      (hd.level = 1 → hd.color sampleTheme = sampleTheme.green) ∧
      (hd.level = 2 → hd.color sampleTheme = sampleTheme.teal) ∧
      (hd.level = 3 → hd.color sampleTheme = sampleTheme.red) ∧
      (hd.level = 4 → hd.color sampleTheme = sampleTheme.peach)) ∧
    (∀ disp, classifyLine ("# Title".toList) = some (disp, none) →
      [Directive.bold, .goto 1 4, .setFg ⟨166, 227, 161⟩, .text ("Title".toList),
        .fgReset, .styleReset, .text ['\n']] =
        [.bold, .goto 1 (0 + 4), .fgReset, .text disp, .fgReset, .styleReset,
          .text ['\n']])) :=
  ⟨by decide,
    c7_line_colors sampleTheme 0 ("# Title".toList)
      [.bold, .goto 1 4, .setFg ⟨166, 227, 161⟩, .text ("Title".toList),
        .fgReset, .styleReset, .text ['\n']] (by decide)⟩

/-! ## Claim C8 -/

/-- C8: whenever `render_slide` completes, it emits a footer whose text
is exactly `"<idx+1>/<total> slides"` (decimal renderings joined by `'/'`
and followed by `" slides"`), bold, horizontally centered with the usual
`⌊(W - L) / 2⌋` padding, at column 1 of row `height - 1` — the
second-to-last row. -/
theorem c8_footer (p : Presentation) (w h : ℕ) (t : Line)
    (cls : Line → Line × Option Header)
    (htitle : p.metadata.title = some t)
    (hlen : t.length ≤ w)
    (hcls : ∀ l ∈ visibleLines p, classifyLine l = some (cls l))
    (hfoot : (footerText p.currentSlide p.totalSlides).length ≤ w)
    (hidx : p.currentSlide < p.totalSlides)
    (hw : w ≤ 65535) :
    (∃ pre post,
      renderSlide p w h = some (pre ++
        [.goto 1 (h - 1), .bold, .setFg p.theme.green,
         .text (List.replicate ((w - (footerText p.currentSlide p.totalSlides).length) / 2) ' '),
         .text (footerText p.currentSlide p.totalSlides), .fgReset, .styleReset] ++ post)) ∧
    footerText p.currentSlide p.totalSlides =
      (Nat.repr (p.currentSlide + 1)).toList ++ '/' :: (Nat.repr p.totalSlides).toList
        ++ (" slides".toList) := by
  refine ⟨⟨[.clearAll, .goto 1 1] ++ centeredDirs t w 1 p.theme.red
      ++ (((visibleLines p).enum.map (fun q => lineDirs p.theme q.1 (cls q.2))).flatten),
    barDirs p.currentSlide p.totalSlides w h p.theme.green ++ [.flush], ?_⟩, rfl⟩
  have hmain := renderSlide_eq p w h t cls htitle hlen hcls hfoot hidx hw
  rw [hmain]
  simp [centeredDirs]

/-- C8 (witness): the one-slide presentation `tinyPres` at width 10 —
footer `"1/1 slides"` of length 10, zero padding, on row 23 of 24. -/
theorem c8_witness :
    (tinyPres.metadata.title = some ("T".toList) ∧
      ("T".toList).length ≤ 10 ∧
      (∀ l ∈ visibleLines tinyPres, classifyLine l = some (classifyLineD l)) ∧
      (footerText tinyPres.currentSlide tinyPres.totalSlides).length ≤ 10 ∧
      tinyPres.currentSlide < tinyPres.totalSlides ∧ (10 : ℕ) ≤ 65535) ∧
    ((∃ pre post,
      renderSlide tinyPres 10 24 = some (pre ++
        [.goto 1 (24 - 1), .bold, .setFg tinyPres.theme.green,
         .text (List.replicate
           ((10 - (footerText tinyPres.currentSlide tinyPres.totalSlides).length) / 2) ' '),
         .text (footerText tinyPres.currentSlide tinyPres.totalSlides),
         .fgReset, .styleReset] ++ post)) ∧
    footerText tinyPres.currentSlide tinyPres.totalSlides =
      (Nat.repr (tinyPres.currentSlide + 1)).toList ++ '/' :: (Nat.repr tinyPres.totalSlides).toList
        ++ (" slides".toList)) :=
  ⟨⟨rfl, by decide, by decide, by decide, by decide, by decide⟩,
    c8_footer tinyPres 10 24 ("T".toList) classifyLineD rfl (by decide) (by decide)
      (by decide) (by decide) (by decide)⟩

/-! ## Claim C9 -/

/-- C9: during every completed `render_slide` call the sink is flushed
exactly once, as the very last directive after all the call's writes; no
flush happens mid-frame (the cursor-position query of
`render_text_centered` is modelled, per the spec's interface section, as
a pure geometry read of the sink, not a write or flush). -/
theorem c9_flush_once (p : Presentation) (w h : ℕ) (ds : List Directive)
    (hds : renderSlide p w h = some ds) :
    ∃ front, ds = front ++ [.flush] ∧ Directive.flush ∉ front := by
  simp only [renderSlide, Option.bind_eq_some, Option.map_eq_some'] at hds
  obtain ⟨t, ht, tds, htds, bds, hbds, fds, hfds, prds, hprds, hfinal⟩ := hds
  subst hfinal
  refine ⟨[.clearAll, .goto 1 1] ++ tds ++ bds ++ fds ++ prds, by simp, ?_⟩
  have htds' : tds = centeredDirs t w 1 p.theme.red := by
    have h1 := renderTextCentered_some htds
    simpa using h1
  have hfds' : fds = centeredDirs (footerText p.currentSlide p.totalSlides) w (h - 1)
      p.theme.green := by
    have h1 := renderTextCentered_some hfds
    simpa using h1
  have hprds' : prds = barDirs p.currentSlide p.totalSlides w h p.theme.green :=
    renderProgressBar_some hprds
  have hbody : Directive.flush ∉ bds :=
    flush_not_mem_renderLines p.theme (visibleLines p) 0 bds hbds
  subst htds' hfds' hprds'
  simp [centeredDirs, barDirs, List.mem_append, hbody]

/-- C9 (witness): the fully evaluated directive stream of `tinyPres` at
width 10, height 24 ends in its unique flush. -/
theorem c9_witness :
    ∃ front,
      ([.clearAll, .goto 1 1, .goto 1 1, .bold, .setFg ⟨243, 139, 168⟩,
        .text (List.replicate 4 ' '), .text ("T".toList), .fgReset, .styleReset,
        .goto 1 23, .bold, .setFg ⟨166, 227, 161⟩, .text [],
        .text ("1/1 slides".toList), .fgReset, .styleReset,
        .goto 1 24, .setFg ⟨166, 227, 161⟩, .text (List.replicate 10 blockChar),
        .fgReset, .text [], .goto 1 25, .flush] : List Directive) =
          front ++ [.flush] ∧ Directive.flush ∉ front :=
  c9_flush_once tinyPres 10 24 _ (by decide)

/-! ## Claim C10 -/

/-- C10: the renderer's two accent colours reuse the heading palette — in
every completed `render_slide` call the title is drawn in the theme's red
slot, which is exactly the level-3 heading colour (`Header3.color`), and
both the footer and the progress bar are drawn in the theme's green slot,
which is exactly the level-1 heading colour (`Header1.color`). -/
theorem c10_accent_colors (p : Presentation) (w h : ℕ) (t : Line)
    (cls : Line → Line × Option Header)
    (htitle : p.metadata.title = some t)
    (hlen : t.length ≤ w)
    (hcls : ∀ l ∈ visibleLines p, classifyLine l = some (cls l))
    (hfoot : (footerText p.currentSlide p.totalSlides).length ≤ w)
    (hidx : p.currentSlide < p.totalSlides)
    (hw : w ≤ 65535) :
    renderSlide p w h =
      some ([.clearAll, .goto 1 1]
        ++ centeredDirs t w 1 (Header.header3.color p.theme)
        ++ (((visibleLines p).enum.map (fun q => lineDirs p.theme q.1 (cls q.2))).flatten)
        ++ centeredDirs (footerText p.currentSlide p.totalSlides) w (h - 1)
            (Header.header1.color p.theme)
        ++ barDirs p.currentSlide p.totalSlides w h (Header.header1.color p.theme)
        ++ [.flush]) ∧
    Header.header3.color p.theme = p.theme.red ∧
    Header.header1.color p.theme = p.theme.green := by
  have hmain := renderSlide_eq p w h t cls htitle hlen hcls hfoot hidx hw
  exact ⟨by simpa [Header.color] using hmain, rfl, rfl⟩

/-- C10 (witness): the accent-colour identities evaluated on `tinyPres`
(red slot 243,139,168 for the title; green slot 166,227,161 for footer
and bar). -/
theorem c10_witness :
    (tinyPres.metadata.title = some ("T".toList) ∧
      ("T".toList).length ≤ 10 ∧
      (∀ l ∈ visibleLines tinyPres, classifyLine l = some (classifyLineD l)) ∧
      (footerText tinyPres.currentSlide tinyPres.totalSlides).length ≤ 10 ∧
      tinyPres.currentSlide < tinyPres.totalSlides ∧ (10 : ℕ) ≤ 65535) ∧
    (renderSlide tinyPres 10 24 =
      some ([.clearAll, .goto 1 1]
        ++ centeredDirs ("T".toList) 10 1 (Header.header3.color tinyPres.theme)
        ++ (((visibleLines tinyPres).enum.map (fun q =>
              lineDirs tinyPres.theme q.1 (classifyLineD q.2))).flatten)
        ++ centeredDirs (footerText tinyPres.currentSlide tinyPres.totalSlides) 10
            (24 - 1) (Header.header1.color tinyPres.theme)
        ++ barDirs tinyPres.currentSlide tinyPres.totalSlides 10 24
            (Header.header1.color tinyPres.theme)
        ++ [.flush]) ∧
    Header.header3.color tinyPres.theme = tinyPres.theme.red ∧
    Header.header1.color tinyPres.theme = tinyPres.theme.green) :=
  ⟨⟨rfl, by decide, by decide, by decide, by decide, by decide⟩,
    c10_accent_colors tinyPres 10 24 ("T".toList) classifyLineD rfl (by decide) (by decide)
      (by decide) (by decide) (by decide)⟩

end ToggleTerm
